import Mathlib

/-!
Shallow embedding of the go-pool repository (package `pool`): a bounded,
generic object pool built on a buffered Go channel `chan *T` of capacity
`size`, filled eagerly by a caller-supplied factory function.

Modelling decisions:
* A Go pointer `*T` is `Option α` (`none` is the nil pointer).
* The buffered channel is a FIFO list `buf : List (Option α)`; the head is
  the element a receive returns first; a send appends at the back and is
  possible exactly when `buf.length < size` (= `cap` of the channel).
* The caller's factory is modelled as a stream `factoryFunc : Nat → Option α`
  together with an invocation counter `calls`: the k-th invocation of the
  factory returns `factoryFunc k`.  This makes "freshly constructed by one
  invocation of the factory" expressible: the produced value is
  `factoryFunc k` for the `k` current at that invocation.
* Blocking operations are partial in the sequential semantics: an operation
  that would block forever (no concurrent helper) returns `none`.
* `select` with a `time.After` deadline is driven by an oracle
  `sched : Nat → Bool`: `sched s = true` means the timeout branch wins the
  s-th select of the call.  When the channel branch is impossible (empty
  buffer on receive, full buffer on send) and no concurrent peer exists,
  the deadline is the only event that can occur, so the timeout branch is
  taken regardless of the oracle.
-/

namespace GoPool

/-- The error values of the package (`ErrFailedToRelease`,
`ErrMissingFactoryFunction`) plus the ad-hoc `errors.New("timeout")`
returned by `AcquireWithTimeout`. -/
inductive PoolErr where
  | failedToRelease
  | missingFactoryFunction
  | timeout
  deriving DecidableEq

/-- `var ErrFailedToRelease = fmt.Errorf("failed to release to pool")` -/
def ErrFailedToRelease : PoolErr := PoolErr.failedToRelease

/-- `var ErrMissingFactoryFunction = fmt.Errorf("missing factory function")` -/
def ErrMissingFactoryFunction : PoolErr := PoolErr.missingFactoryFunction

/-- `type Pool[T any] struct { size int; factoryFunc func() *T; pool chan *T; mux sync.Mutex }`.
The mutex has no sequential content and is not represented; the channel is
`buf`; the factory is the stream `factoryFunc` with invocation counter
`calls`. -/
structure Pool (α : Type) where
  size : Nat
  factoryFunc : Nat → Option α
  calls : Nat
  buf : List (Option α)

variable {α : Type}

/-- One invocation of `p.factoryFunc()`: yields the next stream element and
bumps the invocation counter. -/
def Pool.create (p : Pool α) : Option α × Pool α :=
  (p.factoryFunc p.calls, { p with calls := p.calls + 1 })

/-- The fill loop of `Pool.init`: `for i := 0; i < n; i++ { p.pool <- p.factoryFunc() }`. -/
def Pool.fillLoop : Pool α → Nat → Pool α
  | p, 0 => p
  | p, n + 1 =>
      Pool.fillLoop { p with calls := p.calls + 1, buf := p.buf ++ [p.factoryFunc p.calls] } n

/-- `func (p *Pool[T]) init()`: makes a fresh channel of capacity `p.size`
and fills it with `p.size` factory-made instances. -/
def Pool.init (p : Pool α) : Pool α :=
  Pool.fillLoop { p with buf := [] } p.size

/-- `func NewPool[T any](size int, factoryFunc func() *T) *Pool[T]`:
panics with `ErrMissingFactoryFunction` when the factory is nil (modelled
as `Except.error`), otherwise builds the pool and runs `init`. -/
def NewPool (size : Nat) (factoryFunc : Option (Nat → Option α)) :
    Except PoolErr (Pool α) :=
  match factoryFunc with
  | none => Except.error ErrMissingFactoryFunction
  | some f =>
      Except.ok (Pool.init { size := size, factoryFunc := f, calls := 0, buf := [] })

/-- `func (p *Pool[T]) Len() int { return len(p.pool) }` -/
def Pool.Len (p : Pool α) : Nat := p.buf.length

/-- `func (p *Pool[T]) Cap() int { return cap(p.pool) }` -/
def Pool.Cap (p : Pool α) : Nat := p.size

/-- `func (p *Pool[T]) Acquire() *T { return <-p.pool }` (blocking receive):
`none` when the buffer is empty (the call blocks). -/
def Pool.Acquire (p : Pool α) : Option (Option α × Pool α) :=
  match p.buf with
  | [] => none
  | v :: rest => some (v, { p with buf := rest })

/-- `AcquireWithTimeout`: `select { case v := <-p.pool: return v, nil;
case <-time.After(to): return nil, errors.New("timeout") }`.  Sequentially,
a non-empty buffer makes the receive branch the only one ready immediately;
an empty buffer blocks until the deadline fires.  The result pairs the Go
return values `(*T, error)` with the post-state. -/
def Pool.AcquireWithTimeout (p : Pool α) : (Option α × Option PoolErr) × Pool α :=
  match p.buf with
  | v :: rest => ((v, none), { p with buf := rest })
  | [] => ((none, some PoolErr.timeout), p)

/-- A blocking channel send `p.pool <- v`: succeeds exactly when the buffer
is below capacity; otherwise the call blocks (`none`). -/
def Pool.sendBlocking (p : Pool α) (v : Option α) : Option (Pool α) :=
  if p.buf.length < p.size then some { p with buf := p.buf ++ [v] } else none

/-- `func (p *Pool[T]) Release(v *T)`: `if v == nil { v = p.factoryFunc() };
p.pool <- v` (blocking send). -/
def Pool.Release (p : Pool α) (v : Option α) : Option (Pool α) :=
  match v with
  | none =>
      let c := p.create
      c.2.sendBlocking c.1
  | some x => p.sendBlocking (some x)

/-- `func (p *Pool[T]) TryRelease(v *T) error`: `if v == nil { v = p.factoryFunc() };
select { case p.pool <- v: ; default: return ErrFailedToRelease }; return nil`.
Returns the Go error value together with the post-state. -/
def Pool.TryRelease (p : Pool α) (v : Option α) : Except PoolErr Unit × Pool α :=
  let c := match v with
    | none => p.create
    | some x => (some x, p)
  if c.2.buf.length < c.2.size then
    (Except.ok (), { c.2 with buf := c.2.buf ++ [c.1] })
  else
    (Except.error ErrFailedToRelease, c.2)

/-- The drain loop of `Update`: `for i := 0; i < n; i++ { <-p.pool }`
(blocking receives); `none` when some receive blocks forever. -/
def Pool.drainLoop : Pool α → Nat → Option (Pool α)
  | p, 0 => some p
  | p, n + 1 =>
      match p.buf with
      | [] => none
      | _ :: rest => Pool.drainLoop { p with buf := rest } n

/-- The fill loop of `Update`: `for i := 0; i < n; i++ { p.pool <- p.factoryFunc() }`
(blocking sends); `none` when some send blocks forever. -/
def Pool.fillBlockingLoop : Pool α → Nat → Option (Pool α)
  | p, 0 => some p
  | p, n + 1 =>
      let c := p.create
      match c.2.sendBlocking c.1 with
      | none => none
      | some p' => Pool.fillBlockingLoop p' n

/-- `func (p *Pool[T]) Update()`: under the mutex, drains `cap(p.pool)`
instances with blocking receives, then refills with `cap(p.pool)` blocking
sends of freshly made instances. -/
def Pool.Update (p : Pool α) : Option (Pool α) :=
  match p.drainLoop p.size with
  | none => none
  | some p1 => p1.fillBlockingLoop p1.size

/-- The drain loop of `UpdateWithTimeout`: each iteration is a `select`
racing `<-p.pool` against the shared deadline channel.  Arguments: pool,
remaining iterations, global select index, removed count so far.  Returns
(pool, removed count, next select index, whether all iterations completed).
The timeout branch is taken when the oracle picks it, or when the buffer is
empty (receive impossible, so only the deadline can fire). -/
def Pool.uwtDrain (sched : Nat → Bool) :
    Pool α → Nat → Nat → Nat → Pool α × Nat × Nat × Bool
  | p, 0, s, r => (p, r, s, true)
  | p, n + 1, s, r =>
      if sched s then (p, r, s + 1, false)
      else
        match p.buf with
        | [] => (p, r, s + 1, false)
        | _ :: rest => Pool.uwtDrain sched { p with buf := rest } n (s + 1) (r + 1)

/-- The fill loop of `UpdateWithTimeout`: each iteration evaluates
`p.factoryFunc()` on entering the `select` (Go evaluates send operands once
per select entry), then races the send against the shared deadline.
Returns (pool, refilled count). -/
def Pool.uwtFill (sched : Nat → Bool) :
    Pool α → Nat → Nat → Nat → Pool α × Nat
  | p, 0, _, k => (p, k)
  | p, n + 1, s, k =>
      let c := p.create
      if sched s then (c.2, k)
      else
        match c.2.sendBlocking c.1 with
        | none => (c.2, k)
        | some p' => Pool.uwtFill sched p' n (s + 1) (k + 1)

/-- `func (p *Pool[T]) UpdateWithTimeout(to time.Duration) (int, int)`:
under the mutex, a deadline-bounded drain phase over `cap(p.pool)` selects;
only when every drain iteration completed, a deadline-bounded fill phase.
Returns (post-state, removedInstanceCount, newInstanceCount). -/
def Pool.UpdateWithTimeout (p : Pool α) (sched : Nat → Bool) :
    Pool α × Nat × Nat :=
  match p.uwtDrain sched p.size 0 0 with
  | (p1, r, s, true) =>
      let f := p1.uwtFill sched p1.size s 0
      (f.1, r, f.2)
  | (p1, r, _, false) => (p1, r, 0)

/-- One caller-visible pool operation, for reachability statements. -/
inductive Op (α : Type) where
  | acquire
  | acquireWithTimeout
  | release (v : Option α)
  | tryRelease (v : Option α)
  | update
  | updateWithTimeout (sched : Nat → Bool)

/-- State effect of one operation; an operation that blocks forever leaves
the state unchanged (it never returns, so no later state exists). -/
def applyOp : Op α → Pool α → Pool α
  | Op.acquire, p =>
      match p.Acquire with
      | some x => x.2
      | none => p
  | Op.acquireWithTimeout, p => (p.AcquireWithTimeout).2
  | Op.release v, p => (p.Release v).getD p
  | Op.tryRelease v, p => (p.TryRelease v).2
  | Op.update, p => (p.Update).getD p
  | Op.updateWithTimeout sched, p => (p.UpdateWithTimeout sched).1

/-- Run a sequence of operations from a state. -/
def runOps (p : Pool α) : List (Op α) → Pool α
  | [] => p
  | op :: ops => runOps (applyOp op p) ops

/-! ### Basic lemmas about the fill loop and construction -/

theorem fillLoop_size (n : Nat) : ∀ p : Pool α, (Pool.fillLoop p n).size = p.size := by
  induction n with
  | zero => intro p; rfl
  | succ n ih => intro p; rw [Pool.fillLoop, ih]

theorem fillLoop_factory (n : Nat) :
    ∀ p : Pool α, (Pool.fillLoop p n).factoryFunc = p.factoryFunc := by
  induction n with
  | zero => intro p; rfl
  | succ n ih => intro p; rw [Pool.fillLoop, ih]

theorem fillLoop_calls (n : Nat) : ∀ p : Pool α, (Pool.fillLoop p n).calls = p.calls + n := by
  induction n with
  | zero => intro p; rfl
  | succ n ih => intro p; rw [Pool.fillLoop, ih]; simp; omega

theorem fillLoop_buf (n : Nat) :
    ∀ p : Pool α,
      (Pool.fillLoop p n).buf
        = p.buf ++ (List.range n).map (fun i => p.factoryFunc (p.calls + i)) := by
  induction n with
  | zero => intro p; simp [Pool.fillLoop]
  | succ n ih =>
      intro p
      rw [Pool.fillLoop, ih]
      simp [List.range_succ_eq_map, List.map_map, Function.comp_def]
      intro a _
      congr 1
      omega

theorem newPool_some (size : Nat) (f : Nat → Option α) :
    NewPool size (some f)
      = Except.ok { size := size, factoryFunc := f, calls := size,
                    buf := (List.range size).map f } := by
  simp only [NewPool, Pool.init]
  congr 1
  have hs := fillLoop_size size
    ({ size := size, factoryFunc := f, calls := 0, buf := [] } : Pool α)
  have hf := fillLoop_factory size
    ({ size := size, factoryFunc := f, calls := 0, buf := [] } : Pool α)
  have hc := fillLoop_calls size
    ({ size := size, factoryFunc := f, calls := 0, buf := [] } : Pool α)
  have hb := fillLoop_buf size
    ({ size := size, factoryFunc := f, calls := 0, buf := [] } : Pool α)
  simp at hs hf hc hb
  cases hq : Pool.fillLoop
      ({ size := size, factoryFunc := f, calls := 0, buf := [] } : Pool α) size
  rw [hq] at hs hf hc hb
  simp_all

/-! ### Claim theorems: construction -/

/-- C1: for every capacity > 0 and factory, immediately after
`NewPool(capacity, factory)`, `Len() == Cap() == capacity`, the construction
made exactly `capacity` factory invocations (invocations `0, …, capacity-1`),
and the buffer holds exactly the `capacity` instances they produced, in
order. -/
theorem newPool_fills_to_capacity (capacity : Nat) (f : Nat → Option α)
    (_h : 0 < capacity) :
    ∃ p : Pool α, NewPool capacity (some f) = Except.ok p
      ∧ p.Len = capacity ∧ p.Cap = capacity
      ∧ p.calls = capacity
      ∧ p.buf = (List.range capacity).map f := by
  refine ⟨_, newPool_some capacity f, ?_, rfl, rfl, rfl⟩
  simp [Pool.Len]

/-- Witness for C1 at `capacity = 2`. -/
theorem newPool_fills_to_capacity_witness :
    ∃ p : Pool Nat, NewPool 2 (some fun k => some k) = Except.ok p
      ∧ p.Len = 2 ∧ p.Cap = 2
      ∧ p.calls = 2
      ∧ p.buf = (List.range 2).map (fun k => some k) :=
  newPool_fills_to_capacity 2 (fun k => some k) (by decide)

/-- C8: `NewPool` with a nil factory panics with `ErrMissingFactoryFunction`
(before building any pool — the error result carries no pool and the factory
is never consulted); with a non-nil factory it never fails. -/
theorem newPool_nil_factory_panics (n : Nat) :
    (NewPool (α := α) n none = Except.error ErrMissingFactoryFunction)
    ∧ ∀ f : Nat → Option α, ∃ p, NewPool n (some f) = Except.ok p :=
  ⟨rfl, fun f => ⟨_, newPool_some n f⟩⟩

/-- C10: `NewPool` does not validate the capacity: at capacity 0 it succeeds
with `Len() == Cap() == 0` and zero factory invocations, and on any
capacity-0 pool with empty buffer (the buffer stays empty, as stated) every
`TryRelease` returns `ErrFailedToRelease` and every `AcquireWithTimeout`
returns nil and the timeout error, leaving the state unchanged. -/
theorem newPool_zero_capacity (f : Nat → Option α) :
    ∃ p : Pool α, NewPool 0 (some f) = Except.ok p
      ∧ p.Len = 0 ∧ p.Cap = 0 ∧ p.calls = 0
      ∧ ∀ (q : Pool α) (v : Option α), q.Cap = 0 → q.buf = [] →
          (q.TryRelease v).1 = Except.error ErrFailedToRelease
          ∧ (q.TryRelease v).2.buf = [] ∧ (q.TryRelease v).2.Cap = 0
          ∧ q.AcquireWithTimeout = ((none, some PoolErr.timeout), q) := by
  refine ⟨_, newPool_some 0 f, rfl, rfl, rfl, ?_⟩
  intro q v hcap hbuf
  have hcap' : q.size = 0 := hcap
  cases v <;>
    simp [Pool.TryRelease, Pool.create, Pool.AcquireWithTimeout, Pool.Cap,
      hcap', hbuf]

/-- Witness for C10 at `f k = some k`. -/
theorem newPool_zero_capacity_witness :
    ∃ p : Pool Nat, NewPool 0 (some fun k => some k) = Except.ok p
      ∧ p.Len = 0 ∧ p.Cap = 0 ∧ p.calls = 0
      ∧ ∀ (q : Pool Nat) (v : Option Nat), q.Cap = 0 → q.buf = [] →
          (q.TryRelease v).1 = Except.error ErrFailedToRelease
          ∧ (q.TryRelease v).2.buf = [] ∧ (q.TryRelease v).2.Cap = 0
          ∧ q.AcquireWithTimeout = ((none, some PoolErr.timeout), q) :=
  newPool_zero_capacity (fun k => some k)

/-! ### Claim theorems: release family -/

/-- A freshly constructed pool of capacity 1 (hence full). -/
def fullPool1 : Pool Nat :=
  Pool.init { size := 1, factoryFunc := (fun k => some k), calls := 0, buf := [] }

/-- C2 counterexample: on the full pool produced by `NewPool(1, f)`, a
blocking `Release(nil)` blocks (modelled as `none`): it does not succeed and
does not increase `Len()`, so "always succeeds … with no precondition on how
full the buffer is" fails. -/
theorem release_nil_blocks_on_full_pool :
    NewPool 1 (some fun k => some k) = Except.ok fullPool1
    ∧ fullPool1.Len = fullPool1.Cap
    ∧ fullPool1.Release none = none :=
  ⟨rfl, rfl, rfl⟩

/-- C2 amended: provided the buffer is not full (`Len() < Cap()`),
`Release(nil)` succeeds, increases `Len()` by exactly one, and inserts the
instance produced by one fresh factory invocation; on a full buffer the call
blocks. -/
theorem release_nil_succeeds_when_not_full (p : Pool α) (h : p.Len < p.Cap) :
    ∃ p' : Pool α, p.Release none = some p'
      ∧ p'.Len = p.Len + 1
      ∧ p'.calls = p.calls + 1
      ∧ p'.buf = p.buf ++ [p.factoryFunc p.calls] := by
  have h' : p.buf.length < p.size := h
  simp [Pool.Release, Pool.create, Pool.sendBlocking, h', Pool.Len]

/-- A concrete capacity-2 pool holding one instance, factory-call counter
at 5 (one of its instances is checked out). -/
def halfPool2 : Pool Nat :=
  { size := 2, factoryFunc := (fun k => some k), calls := 5, buf := [some 0] }

/-- Witness for the amended C2 at a non-full concrete pool. -/
theorem release_nil_succeeds_when_not_full_witness :
    ∃ p' : Pool Nat, halfPool2.Release none = some p'
      ∧ p'.Len = halfPool2.Len + 1
      ∧ p'.calls = halfPool2.calls + 1
      ∧ p'.buf = halfPool2.buf ++ [halfPool2.factoryFunc halfPool2.calls] :=
  release_nil_succeeds_when_not_full halfPool2 (by decide)

/-- C3: under the buffer invariant `Len() ≤ Cap()`, `TryRelease(v)` returns
`ErrFailedToRelease` iff the buffer is full; on that error the buffer is
unchanged; otherwise it returns success, appends `v` (or the instance from a
fresh factory invocation when `v` is nil), and increases `Len()` by one. -/
theorem tryRelease_full_iff (p : Pool α) (v : Option α) (h : p.Len ≤ p.Cap) :
    ((p.TryRelease v).1 = Except.error ErrFailedToRelease ↔ p.Len = p.Cap)
    ∧ (p.Len = p.Cap → (p.TryRelease v).2.buf = p.buf)
    ∧ (p.Len < p.Cap →
        (p.TryRelease v).1 = Except.ok ()
        ∧ (p.TryRelease v).2.Len = p.Len + 1
        ∧ (p.TryRelease v).2.buf
            = p.buf ++ [match v with
                        | none => p.factoryFunc p.calls
                        | some x => some x]) := by
  have h' : p.buf.length ≤ p.size := h
  by_cases hlt : p.buf.length < p.size <;>
    cases v <;>
    simp [Pool.TryRelease, Pool.create, Pool.Len, Pool.Cap, hlt] <;>
    omega

/-- Witness for C3 at a full concrete pool. -/
theorem tryRelease_full_iff_witness :
    ((((fullPool1.TryRelease (some 7)).1 = Except.error ErrFailedToRelease))
        ↔ fullPool1.Len = fullPool1.Cap)
    ∧ (fullPool1.Len = fullPool1.Cap →
        (fullPool1.TryRelease (some 7)).2.buf = fullPool1.buf)
    ∧ (fullPool1.Len < fullPool1.Cap →
        (fullPool1.TryRelease (some 7)).1 = Except.ok ()
        ∧ (fullPool1.TryRelease (some 7)).2.Len = fullPool1.Len + 1
        ∧ (fullPool1.TryRelease (some 7)).2.buf
            = fullPool1.buf ++ [some 7]) :=
  tryRelease_full_iff fullPool1 (some 7) (by decide)

/-- C9: `TryRelease(nil)` invokes the factory exactly once — the invocation
counter increases by one in every case — and when the buffer is full the
call returns `ErrFailedToRelease` with the buffer unchanged, so the freshly
constructed instance is dropped. -/
theorem tryRelease_nil_invokes_factory_once (p : Pool α) :
    (p.TryRelease none).2.calls = p.calls + 1
    ∧ (p.Len = p.Cap →
        (p.TryRelease none).1 = Except.error ErrFailedToRelease
        ∧ (p.TryRelease none).2.buf = p.buf) := by
  constructor
  · by_cases hlt : p.buf.length < p.size <;>
      simp [Pool.TryRelease, Pool.create, hlt]
  · intro hfull
    have hfull' : p.buf.length = p.size := hfull
    have hlt : ¬ p.buf.length < p.size := by omega
    simp [Pool.TryRelease, Pool.create, hlt]

/-- Witness for C9 at the full capacity-1 pool. -/
theorem tryRelease_nil_invokes_factory_once_witness :
    (fullPool1.TryRelease none).2.calls = fullPool1.calls + 1
    ∧ (fullPool1.Len = fullPool1.Cap →
        (fullPool1.TryRelease none).1 = Except.error ErrFailedToRelease
        ∧ (fullPool1.TryRelease none).2.buf = fullPool1.buf) :=
  tryRelease_nil_invokes_factory_once fullPool1

/-! ### Claim theorems: acquire with timeout -/

/-- C6: `AcquireWithTimeout` on a non-empty buffer removes and returns the
front instance with no error; on an empty buffer (no concurrent release, so
it stays empty until the deadline) it returns nil and the timeout error with
the state — in particular `Len()` — unchanged. -/
theorem acquireWithTimeout_spec (p : Pool α) :
    (∀ (v : Option α) (rest : List (Option α)), p.buf = v :: rest →
        p.AcquireWithTimeout = ((v, none), { p with buf := rest }))
    ∧ (p.buf = [] →
        p.AcquireWithTimeout = ((none, some PoolErr.timeout), p)
        ∧ (p.AcquireWithTimeout).2.Len = p.Len) := by
  constructor
  · intro v rest hbuf
    simp [Pool.AcquireWithTimeout, hbuf]
  · intro hbuf
    simp [Pool.AcquireWithTimeout, hbuf]

/-- Witness for C6: both branches at concrete pools. -/
theorem acquireWithTimeout_spec_witness :
    fullPool1.AcquireWithTimeout = ((some 0, none), { fullPool1 with buf := [] })
    ∧ (({ fullPool1 with buf := [] } : Pool Nat).AcquireWithTimeout
        = ((none, some PoolErr.timeout), { fullPool1 with buf := [] })) :=
  ⟨(acquireWithTimeout_spec fullPool1).1 (some 0) [] rfl,
   ((acquireWithTimeout_spec ({ fullPool1 with buf := [] } : Pool Nat)).2 rfl).1⟩

/-! ### Lemmas for the bulk refresh loops -/

theorem drainLoop_of_le_length (n : Nat) :
    ∀ p : Pool α, n ≤ p.buf.length →
      Pool.drainLoop p n = some { p with buf := p.buf.drop n } := by
  induction n with
  | zero => intro p _; simp [Pool.drainLoop]
  | succ n ih =>
      intro p h
      rcases hbuf : p.buf with _ | ⟨v, rest⟩
      · rw [hbuf] at h; simp at h
      · rw [Pool.drainLoop, hbuf]
        dsimp only
        rw [ih { p with buf := rest } (by rw [hbuf] at h; simpa using h)]
        simp [hbuf]

theorem fillBlockingLoop_eq_fillLoop (n : Nat) :
    ∀ p : Pool α, p.buf.length + n ≤ p.size →
      Pool.fillBlockingLoop p n = some (Pool.fillLoop p n) := by
  induction n with
  | zero => intro p _; simp [Pool.fillBlockingLoop, Pool.fillLoop]
  | succ n ih =>
      intro p h
      have hlt : p.buf.length < p.size := by omega
      rw [Pool.fillBlockingLoop, Pool.fillLoop]
      simp only [Pool.create, Pool.sendBlocking]
      rw [if_pos hlt]
      exact ih _ (by simpa using by omega)

/-- C5: `Update()` on a buffer holding `capacity` instances (no outstanding
borrowers) drains all `capacity` of them, then inserts exactly `capacity`
instances produced by `capacity` fresh factory invocations made during the
call; afterwards `Len() == Cap()` and every buffered instance comes from one
of those invocations. -/
theorem update_refreshes_full_pool (p : Pool α) (h : p.Len = p.Cap) :
    ∃ p' : Pool α, p.Update = some p'
      ∧ p'.Len = p'.Cap ∧ p'.Cap = p.Cap
      ∧ p'.calls = p.calls + p.Cap
      ∧ p'.buf = (List.range p.Cap).map (fun i => p.factoryFunc (p.calls + i))
      ∧ ∀ x ∈ p'.buf, ∃ j, p.calls ≤ j ∧ j < p.calls + p.Cap
          ∧ x = p.factoryFunc j := by
  have h' : p.buf.length = p.size := h
  have hdrop : p.buf.drop p.size = [] := by
    rw [← h']; exact List.drop_length p.buf
  rw [Pool.Update, drainLoop_of_le_length p.size p (by omega)]
  simp only
  rw [fillBlockingLoop_eq_fillLoop _ _ (by simp [hdrop])]
  refine ⟨_, rfl, ?_, ?_, ?_, ?_, ?_⟩
  · show (Pool.fillLoop _ _).buf.length = (Pool.fillLoop _ _).size
    rw [fillLoop_size, fillLoop_buf]
    simp [hdrop]
  · show (Pool.fillLoop _ _).size = p.size
    rw [fillLoop_size]
  · show (Pool.fillLoop _ _).calls = p.calls + p.size
    rw [fillLoop_calls]
  · rw [fillLoop_buf]
    simp [hdrop, Pool.Cap]
  · rw [fillLoop_buf]
    simp only [hdrop, List.nil_append]
    intro x hx
    simp only [List.mem_map, List.mem_range] at hx
    obtain ⟨i, hi, rfl⟩ := hx
    exact ⟨p.calls + i, by omega, by
      show p.calls + i < p.calls + p.Cap
      have : i < p.size := by simpa using hi
      simp [Pool.Cap]; omega, rfl⟩

/-- Witness for C5 at the full capacity-1 pool. -/
theorem update_refreshes_full_pool_witness :
    ∃ p' : Pool Nat, fullPool1.Update = some p'
      ∧ p'.Len = p'.Cap ∧ p'.Cap = fullPool1.Cap
      ∧ p'.calls = fullPool1.calls + fullPool1.Cap
      ∧ p'.buf = (List.range fullPool1.Cap).map
          (fun i => fullPool1.factoryFunc (fullPool1.calls + i))
      ∧ ∀ x ∈ p'.buf, ∃ j, fullPool1.calls ≤ j
          ∧ j < fullPool1.calls + fullPool1.Cap
          ∧ x = fullPool1.factoryFunc j :=
  update_refreshes_full_pool fullPool1 (by decide)

/-! ### Lemmas for the deadline-bounded refresh -/

theorem uwtDrain_spec (sched : Nat → Bool) (n : Nat) :
    ∀ (p : Pool α) (s r : Nat),
      (Pool.uwtDrain sched p n s r).1.size = p.size
      ∧ (Pool.uwtDrain sched p n s r).1.buf.length ≤ p.buf.length
      ∧ (Pool.uwtDrain sched p n s r).2.1 ≤ r + n
      ∧ ((Pool.uwtDrain sched p n s r).2.2.2 = true →
          (Pool.uwtDrain sched p n s r).2.1 = r + n) := by
  induction n with
  | zero => intro p s r; simp [Pool.uwtDrain]
  | succ n ih =>
      intro p s r
      rw [Pool.uwtDrain]
      by_cases hs : sched s
      · simp [hs]
      · rw [if_neg hs]
        rcases hbuf : p.buf with _ | ⟨v, rest⟩
        · dsimp only
          simp [hbuf]
        · dsimp only
          obtain ⟨h1, h2, h3, h4⟩ := ih { p with buf := rest } (s + 1) (r + 1)
          dsimp only at h1 h2 h3 h4
          refine ⟨h1, ?_, by omega, fun hd => by have := h4 hd; omega⟩
          exact le_trans h2 (by simp)

theorem uwtDrain_empty (sched : Nat → Bool) (n : Nat) (p : Pool α) (s r : Nat)
    (h : p.buf = []) :
    (Pool.uwtDrain sched p n s r).2.1 = r
    ∧ ((Pool.uwtDrain sched p n s r).2.2.2 = true → n = 0) := by
  cases n with
  | zero => simp [Pool.uwtDrain]
  | succ n =>
      rw [Pool.uwtDrain]
      by_cases hs : sched s
      · simp [hs]
      · rw [if_neg hs, h]
        simp

theorem uwtFill_spec (sched : Nat → Bool) (n : Nat) :
    ∀ (p : Pool α) (s k : Nat),
      (Pool.uwtFill sched p n s k).1.size = p.size
      ∧ (Pool.uwtFill sched p n s k).2 ≤ k + n
      ∧ (p.buf.length ≤ p.size →
          (Pool.uwtFill sched p n s k).1.buf.length
            ≤ (Pool.uwtFill sched p n s k).1.size) := by
  induction n with
  | zero => intro p s k; simp [Pool.uwtFill]
  | succ n ih =>
      intro p s k
      rw [Pool.uwtFill]
      simp only [Pool.create, Pool.sendBlocking]
      by_cases hs : sched s
      · simp [hs]
      · rw [if_neg hs]
        by_cases hlt : p.buf.length < p.size
        · rw [if_pos hlt]
          dsimp only
          obtain ⟨h1, h2, h3⟩ := ih { p with calls := p.calls + 1, buf := p.buf ++ [p.factoryFunc p.calls] } (s + 1) (k + 1)
          dsimp only at h1 h2 h3
          refine ⟨h1, by omega, fun _ => ?_⟩
          exact h3 (by simp; omega)
        · rw [if_neg hlt]
          dsimp only
          refine ⟨rfl, by omega, fun hwf => by simpa using hwf⟩

/-- C4: `UpdateWithTimeout` reports counts with `removed ≤ capacity` and
`refilled ≤ capacity` (both are naturals, so `0 ≤` holds trivially), the
fill phase runs only when the drain phase completed all `capacity` steps
(`refilled > 0 → removed = capacity`), and on an empty buffer with nothing
released before the deadline it returns `removed = 0` and `refilled = 0`,
for every resolution `sched` of the deadline races. -/
theorem updateWithTimeout_counts (p : Pool α) (sched : Nat → Bool) :
    (p.UpdateWithTimeout sched).2.1 ≤ p.Cap
    ∧ (p.UpdateWithTimeout sched).2.2 ≤ p.Cap
    ∧ (0 < (p.UpdateWithTimeout sched).2.2 →
        (p.UpdateWithTimeout sched).2.1 = p.Cap)
    ∧ (p.buf = [] →
        (p.UpdateWithTimeout sched).2.1 = 0
        ∧ (p.UpdateWithTimeout sched).2.2 = 0) := by
  have hd := uwtDrain_spec sched p.size p 0 0
  rw [Pool.UpdateWithTimeout]
  rcases hdr : Pool.uwtDrain sched p p.size 0 0 with ⟨p1, r, s, b⟩
  rw [hdr] at hd
  simp only at hd
  cases b with
  | false =>
      simp only
      refine ⟨by have := hd.2.2.1; simpa [Pool.Cap] using this, by omega,
        by omega, fun hbuf => ?_⟩
      have := (uwtDrain_empty sched p.size p 0 0 hbuf).1
      rw [hdr] at this
      simpa using this
  | true =>
      have hf := uwtFill_spec sched p1.size p1 s 0
      simp only
      have hrem : r = p.size := by have := hd.2.2.2 rfl; simpa using this
      have hsz : p1.size = p.size := hd.1
      refine ⟨by simp [Pool.Cap, hrem], ?_, fun _ => by simp [Pool.Cap, hrem],
        fun hbuf => ?_⟩
      · have := hf.2.1
        simp [Pool.Cap, ← hsz]
        omega
      · have hn : p.size = 0 := (uwtDrain_empty sched p.size p 0 0 hbuf).2
          (by rw [hdr])
        constructor
        · simp [hrem, hn]
        · have := hf.2.1
          rw [hsz, hn] at this
          omega

/-- A capacity-3 pool with all three instances checked out (empty buffer):
the spec's deadline-bounded refresh scenario. -/
def emptyPool3 : Pool Nat :=
  { size := 3, factoryFunc := (fun k => some k), calls := 3, buf := [] }

/-- Witness for C4: `capacity = 3` with all three instances checked out and
nothing released before the deadline fires; counts are `(0, 0)`. -/
theorem updateWithTimeout_counts_witness :
    (emptyPool3.UpdateWithTimeout (fun _ => true)).2.1 = 0
    ∧ (emptyPool3.UpdateWithTimeout (fun _ => true)).2.2 = 0 :=
  (updateWithTimeout_counts emptyPool3 (fun _ => true)).2.2.2 rfl

/-! ### Invariant: the buffer never exceeds capacity, capacity never changes -/

theorem drainLoop_some_spec (n : Nat) :
    ∀ p p' : Pool α, Pool.drainLoop p n = some p' →
      p'.size = p.size ∧ p'.buf.length ≤ p.buf.length := by
  induction n with
  | zero =>
      intro p p' h
      rw [Pool.drainLoop] at h
      injection h with h
      subst h
      exact ⟨rfl, le_refl _⟩
  | succ n ih =>
      intro p p' h
      rw [Pool.drainLoop] at h
      rcases hbuf : p.buf with _ | ⟨v, rest⟩
      · rw [hbuf] at h; exact absurd h (by simp)
      · rw [hbuf] at h
        dsimp only at h
        obtain ⟨h1, h2⟩ := ih _ _ h
        dsimp only at h1 h2
        refine ⟨h1, ?_⟩
        exact le_trans h2 (by simp)

theorem fillBlockingLoop_some_spec (n : Nat) :
    ∀ p p' : Pool α, Pool.fillBlockingLoop p n = some p' →
      p'.size = p.size ∧ p'.buf.length ≤ max p.buf.length p.size := by
  induction n with
  | zero =>
      intro p p' h
      rw [Pool.fillBlockingLoop] at h
      injection h with h
      subst h
      exact ⟨rfl, le_max_left _ _⟩
  | succ n ih =>
      intro p p' h
      rw [Pool.fillBlockingLoop] at h
      dsimp only [Pool.create, Pool.sendBlocking] at h
      by_cases hlt : p.buf.length < p.size
      · rw [if_pos hlt] at h
        dsimp only at h
        obtain ⟨h1, h2⟩ := ih _ _ h
        dsimp only at h1 h2
        refine ⟨h1, ?_⟩
        simp only [List.length_append, List.length_singleton] at h2
        omega
      · rw [if_neg hlt] at h
        exact absurd h (by simp)

theorem acquire_state (p : Pool α) :
    (match p.Acquire with | some x => x.2 | none => p).size = p.size
    ∧ (match p.Acquire with | some x => x.2 | none => p).buf.length
        ≤ p.buf.length := by
  rcases hbuf : p.buf with _ | ⟨v, rest⟩ <;>
    simp [Pool.Acquire, hbuf]

theorem applyOp_size (op : Op α) (p : Pool α) : (applyOp op p).size = p.size := by
  cases op with
  | acquire =>
      show (match p.Acquire with | some x => x.2 | none => p).size = p.size
      exact (acquire_state p).1
  | acquireWithTimeout =>
      rcases hbuf : p.buf with _ | ⟨v, rest⟩ <;>
        simp [applyOp, Pool.AcquireWithTimeout, hbuf]
  | release v =>
      rcases v with _ | x <;>
        by_cases hlt : p.buf.length < p.size <;>
        simp [applyOp, Pool.Release, Pool.create, Pool.sendBlocking, hlt]
  | tryRelease v =>
      rcases v with _ | x <;>
        by_cases hlt : p.buf.length < p.size <;>
        simp [applyOp, Pool.TryRelease, Pool.create, hlt]
  | update =>
      show ((p.Update).getD p).size = p.size
      rcases h : p.Update with _ | p'
      · simp
      · rw [Pool.Update] at h
        rcases hd : p.drainLoop p.size with _ | p1
        · rw [hd] at h; exact absurd h (by simp)
        · rw [hd] at h
          dsimp only at h
          have h1 := (drainLoop_some_spec p.size p p1 hd).1
          have h2 := (fillBlockingLoop_some_spec p1.size p1 p' h).1
          simp
          omega
  | updateWithTimeout sched =>
      show ((p.UpdateWithTimeout sched).1).size = p.size
      rw [Pool.UpdateWithTimeout]
      rcases hdr : p.uwtDrain sched p.size 0 0 with ⟨p1, r, s, b⟩
      have hd := uwtDrain_spec sched p.size p 0 0
      rw [hdr] at hd
      cases b with
      | false => exact hd.1
      | true =>
          dsimp only
          have hf := uwtFill_spec sched p1.size p1 s 0
          rw [hf.1]
          exact hd.1

theorem applyOp_wf (op : Op α) (p : Pool α) (h : p.buf.length ≤ p.size) :
    (applyOp op p).buf.length ≤ (applyOp op p).size := by
  rw [applyOp_size]
  cases op with
  | acquire =>
      exact le_trans (acquire_state p).2 h
  | acquireWithTimeout =>
      rcases hbuf : p.buf with _ | ⟨v, rest⟩ <;>
        simp [applyOp, Pool.AcquireWithTimeout, hbuf] <;>
        rw [hbuf] at h <;> simp at h <;> omega
  | release v =>
      rcases v with _ | x <;>
        by_cases hlt : p.buf.length < p.size <;>
        simp [applyOp, Pool.Release, Pool.create, Pool.sendBlocking, hlt] <;>
        omega
  | tryRelease v =>
      rcases v with _ | x <;>
        by_cases hlt : p.buf.length < p.size <;>
        simp [applyOp, Pool.TryRelease, Pool.create, hlt] <;>
        omega
  | update =>
      show ((p.Update).getD p).buf.length ≤ p.size
      rcases hu : p.Update with _ | p'
      · simpa using h
      · rw [Pool.Update] at hu
        rcases hd : p.drainLoop p.size with _ | p1
        · rw [hd] at hu; exact absurd hu (by simp)
        · rw [hd] at hu
          dsimp only at hu
          obtain ⟨hd1, hd2⟩ := drainLoop_some_spec p.size p p1 hd
          obtain ⟨hf1, hf2⟩ := fillBlockingLoop_some_spec p1.size p1 p' hu
          simp
          omega
  | updateWithTimeout sched =>
      show ((p.UpdateWithTimeout sched).1).buf.length ≤ p.size
      rw [Pool.UpdateWithTimeout]
      rcases hdr : p.uwtDrain sched p.size 0 0 with ⟨p1, r, s, b⟩
      have hd := uwtDrain_spec sched p.size p 0 0
      rw [hdr] at hd
      dsimp only at hd
      cases b with
      | false => exact le_trans hd.2.1 (by omega)
      | true =>
          dsimp only
          have hf := uwtFill_spec sched p1.size p1 s 0
          have hwf1 : p1.buf.length ≤ p1.size := by
            have := hd.2.1
            have := hd.1
            omega
          have := hf.2.2 hwf1
          rw [hf.1] at this
          have := hd.1
          omega

theorem runOps_size (ops : List (Op α)) :
    ∀ p : Pool α, (runOps p ops).size = p.size := by
  induction ops with
  | nil => intro p; rfl
  | cons op ops ih =>
      intro p
      rw [runOps, ih, applyOp_size]

theorem runOps_wf (ops : List (Op α)) :
    ∀ p : Pool α, p.buf.length ≤ p.size →
      (runOps p ops).buf.length ≤ (runOps p ops).size := by
  induction ops with
  | nil => intro p h; exact h
  | cons op ops ih =>
      intro p h
      rw [runOps]
      refine ih (applyOp op p) ?_
      have := applyOp_wf op p h
      rw [applyOp_size] at this
      rw [applyOp_size]
      exact this

/-- C7: from any pool built by `NewPool(capacity, factory)`, after any
sequence of acquire / release / try-release / bulk-refresh operations,
`0 ≤ Len() ≤ Cap()` holds (`Len` is a natural, so `0 ≤ Len()` is inherent)
and `Cap()` still returns the construction-time capacity: no operation
changes it. -/
theorem pool_len_le_cap_always (capacity : Nat) (f : Nat → Option α)
    (p : Pool α) (ops : List (Op α))
    (h : NewPool capacity (some f) = Except.ok p) :
    (runOps p ops).Len ≤ (runOps p ops).Cap
    ∧ (runOps p ops).Cap = capacity := by
  rw [newPool_some] at h
  injection h with h
  subst h
  constructor
  · show (runOps _ ops).buf.length ≤ (runOps _ ops).size
    exact runOps_wf ops _ (by simp)
  · show (runOps _ ops).size = capacity
    rw [runOps_size]

/-- A sample operation sequence exercising every operation kind. -/
def opsDemo : List (Op Nat) :=
  [Op.tryRelease none, Op.acquire, Op.release (some 9),
   Op.updateWithTimeout (fun s => s == 1), Op.update, Op.acquireWithTimeout]

/-- Witness for C7 on a concrete capacity-1 pool and operation sequence. -/
theorem pool_len_le_cap_always_witness :
    (runOps fullPool1 opsDemo).Len ≤ (runOps fullPool1 opsDemo).Cap
    ∧ (runOps fullPool1 opsDemo).Cap = 1 :=
  pool_len_le_cap_always 1 (fun k => some k) fullPool1 opsDemo rfl

end GoPool
